import Mathlib

/-!
Verification of the 2D-Positional-Encoding-Vision-Transformer repository.

The repository trains an image-classification Vision Transformer and
compares five positional-embedding strategies (none, learn, sinusoidal,
relative, rope).  The orchestration code (`main.py`, `solver.py`) is
embedded directly from the source; the model-definition module
(`vit_model.py`, referenced by the orchestrator but not part of the
sources at hand) is modelled from the specification where a claim needs
it, with each such definition marked `Modelled from the spec:`.

Numerical values carried by the orchestrator (accuracies, losses,
logits) are represented as rationals; vector payloads of the model are
polymorphic over a commutative ring so the rotary-embedding theorems can
be read over the reals while everything stays executable.
-/

namespace ViTRepo

/-- The five positional-embedding variants accepted by `--pos_embed`
(`main.py`, choices of the `pos_embed` argument). -/
inductive PosEmbedKind where
  | pnone
  | learn
  | sinusoidal
  | relative
  | rope
deriving DecidableEq, Repr

/-- `os.path.join(a, b)` for the relative path fragments used by this
repository: concatenation with a single separator. -/
def pathJoin (a b : String) : String := a ++ "/" ++ b

/-- String tag of a variant, as produced by `args.pos_embed`. -/
def posEmbedTag : PosEmbedKind → String
  | .pnone => "none"
  | .learn => "learn"
  | .sinusoidal => "sinusoidal"
  | .relative => "relative"
  | .rope => "rope"

/-- The checkpoint file path written by `Solver.train`
(`solver.py` line 150):
`os.path.join(self.args.model_path, f"ViT_model_{self.args.pos_embed}.pt")`. -/
def savePathOf (modelPath posEmbed : String) : String :=
  pathJoin modelPath ("ViT_model_" ++ posEmbed ++ ".pt")

/-- The checkpoint file path read by `Solver.__init__` when
`args.load_model` is set (`solver.py` line 33):
`os.path.join(self.args.model_path, 'ViT_model.pt')`. -/
def loadPathOf (modelPath : String) : String :=
  pathJoin modelPath "ViT_model.pt"

/-- The configuration record the spec says the orchestrator supplies to
the model (spec §6); `dropout` is kept as a rational. -/
structure Args where
  pos_embed : PosEmbedKind
  max_relative_distance : ℕ
  embed_dim : ℕ
  n_layers : ℕ
  n_attention_heads : ℕ
  forward_mul : ℕ
  image_size : ℕ
  patch_size : ℕ
  dropout : ℚ
  n_classes : ℕ
deriving DecidableEq, Repr

/-- The argument tuple of the `VisionTransformer(...)` call. -/
structure ViTCall where
  n_channels : ℕ
  embed_dim : ℕ
  n_layers : ℕ
  n_attention_heads : ℕ
  forward_mul : ℕ
  image_size : ℕ
  patch_size : ℕ
  dropout : ℚ
  n_classes : ℕ
  pos_embed : PosEmbedKind
  max_relative_distance : ℕ
deriving DecidableEq, Repr

/-- The constructor call issued by `Solver.__init__` (`solver.py`
lines 23-25): every architectural argument is a literal
(`n_channels=3, embed_dim=128, n_layers=6, n_attention_heads=4,
forward_mul=2, image_size=32, patch_size=4, dropout=0.1`); only
`n_classes`, `pos_embed` and `max_relative_distance` are read from the
configuration record. -/
def solverViTCall (a : Args) : ViTCall :=
  { n_channels := 3
    embed_dim := 128
    n_layers := 6
    n_attention_heads := 4
    forward_mul := 2
    image_size := 32
    patch_size := 4
    dropout := 1 / 10
    n_classes := a.n_classes
    pos_embed := a.pos_embed
    max_relative_distance := a.max_relative_distance }

/-- `args.n_patches = (args.image_size // args.patch_size) ** 2` as set
by `update_args` (`main.py` line 24); Python `//` on positive operands
is `Nat` division. -/
def nPatchesOf (image_size patch_size : ℕ) : ℕ :=
  (image_size / patch_size) ^ 2

/-- Sequence length of the transformer: the patch sequence plus the
prepended classification token (spec §3). -/
def seqLenOf (image_size patch_size : ℕ) : ℕ :=
  nPatchesOf image_size patch_size + 1

/-- `Solver.test` (`solver.py` lines 76-86), abstracted over
`test_dataset` (a pure metric of the loader under evaluation mode) and
the two loaders.  The first component records the metric pairs printed
for the train loader (nonempty exactly when `train=True`); the second
component is the returned `(acc, loss)` pair, always recomputed on the
test loader. -/
def solverTest {L : Type} (testDataset : L → ℚ × ℚ)
    (trainLoader testLoader : L) (train : Bool) :
    List (ℚ × ℚ) × (ℚ × ℚ) :=
  let trainLog := if train then [testDataset trainLoader] else []
  (trainLog, testDataset testLoader)

/-- `best_acc` after folding the per-epoch updates
`best_acc = max(test_acc, best_acc)` of `Solver.train`
(`solver.py` lines 99 and 146) over a list of per-epoch test
accuracies, starting from `best_acc = 0`. -/
def bestAccAfter (accs : List ℚ) : ℚ :=
  accs.foldl (fun b a => max a b) 0

/-! ### Vector and sequence operations of the model

`vit_model.py` is referenced by the orchestrator but is not among the
sources at hand, so the model-side operations below are modelled from
the specification (§3, §4).  Vectors are lists over a commutative ring;
transcendental scalar functions (sine, cosine, the inverse-frequency
map, the softmax row map) are taken as parameters so every definition
stays executable. -/

/-- Elementwise vector sum (`seq + P` of the additive variants). -/
def addVec {α : Type} [CommRing α] (u v : List α) : List α :=
  List.zipWith (· + ·) u v

/-- Scalar multiple of a vector. -/
def scaleVec {α : Type} [CommRing α] (c : α) (v : List α) : List α :=
  v.map (fun x => c * x)

/-- Dot product of two vectors. -/
def dotVec {α : Type} [CommRing α] (u v : List α) : α :=
  (List.zipWith (· * ·) u v).sum

/-- Positionwise sum of a sequence and a table of the same shape. -/
def addTable {α : Type} [CommRing α] (seq P : List (List α)) :
    List (List α) :=
  List.zipWith addVec seq P

/-- Sum of squared entries of a vector (the squared Euclidean norm). -/
def sumSq {α : Type} [CommRing α] (v : List α) : α :=
  (v.map (fun x => x * x)).sum

/-- Modelled from the spec (§4.1 sinusoidal, `vit_model.py` missing):
`S[pos, 2i] = sin(pos·invFreq i)`, `S[pos, 2i+1] = cos(pos·invFreq i)`
with `invFreq i = 1 / 10000^(2i/embed_dim)`; `sin`, `cos` and `invFreq`
are parameters because they are transcendental over the ring. -/
def sinTable {α : Type} [CommRing α] (sin cos : α → α) (invFreq : ℕ → α)
    (L d : ℕ) : List (List α) :=
  (List.range L).map (fun (pos : ℕ) =>
    (List.range d).map (fun (j : ℕ) =>
      if j % 2 = 0 then sin ((pos : α) * invFreq (j / 2))
      else cos ((pos : α) * invFreq (j / 2))))

/-- Modelled from the spec (§4.1 rope, `vit_model.py` missing): rotate
adjacent coordinate pairs of a vector, pair `i` by the angle whose
cosine/sine are `cs[i]`; coordinates beyond the supplied angles (or a
trailing unpaired coordinate) pass through unchanged. -/
def rotateVec {α : Type} [CommRing α] : List (α × α) → List α → List α
  | _, [] => []
  | _, [x] => [x]
  | [], x :: y :: r => x :: y :: r
  | c :: cs, x :: y :: r =>
      (x * c.1 - y * c.2) :: (x * c.2 + y * c.1) :: rotateVec cs r

/-- Modelled from the spec (§4.1 rope): apply the position-dependent
rotation to every vector of a sequence, position `pos` using the
cosine/sine pairs `angles pos`. -/
def ropeSeq {α : Type} [CommRing α] (angles : ℕ → List (α × α))
    (seq : List (List α)) : List (List α) :=
  List.zipWith (fun pos v => rotateVec (angles pos) v)
    (List.range seq.length) seq

/-- Modelled from the spec (§4.1 relative): the relative index of a
pair of sequence positions is `clip(j - i, -k, k) + k`. -/
def relIndex (k i j : ℕ) : ℕ :=
  (max (-(k : ℤ)) (min ((j : ℤ) - (i : ℤ)) (k : ℤ)) + (k : ℤ)).toNat

/-- Modelled from the spec (§4.1 relative): the additive attention-logit
bias matrix, entry `(i, j)` being the dot product of the query at
position `i` with row `relIndex k i j` of the trainable table `R`. -/
def relBias {α : Type} [CommRing α] (R : List (List α)) (k : ℕ)
    (Q : List (List α)) : List (List α) :=
  List.zipWith (fun i qi =>
      (List.range Q.length).map (fun j => dotVec qi (R.getD (relIndex k i j) [])))
    (List.range Q.length) Q

/-- Convex-type combination `Σ_j w_j · V_j` of the value rows, padded to
dimension `d` by the zero vector. -/
def weightedSum {α : Type} [CommRing α] (d : ℕ) (w : List α)
    (V : List (List α)) : List α :=
  (List.zipWith scaleVec w V).foldr addVec (List.replicate d 0)

/-- Modelled from the spec (§4.2, `vit_model.py` missing): scaled
dot-product attention with an additive logit bias,
`softmax(scale·QKᵀ + bias) V`; the softmax row map `sm` is a parameter
because it is transcendental over the ring. -/
def attentionWithBias {α : Type} [CommRing α] (sm : List α → List α)
    (scale : α) (d : ℕ) (Q K V bias : List (List α)) : List (List α) :=
  let scores := Q.map (fun q => K.map (fun kk => scale * dotVec q kk))
  let biased := List.zipWith addVec scores bias
  let probs := biased.map sm
  probs.map (fun p => weightedSum d p V)

/-- Modelled from the spec (§4.1): the data a variant may consult —
the learned table, the transcendental ingredients of the sinusoidal
table, the per-position rope angles, the relative table with its clip
radius, and the softmax/scale of the attention that consumes the
relative bias. -/
structure VariantData (α : Type) where
  learnTable : List (List α)
  sin : α → α
  cos : α → α
  invFreq : ℕ → α
  ropeAngles : ℕ → List (α × α)
  relTable : List (List α)
  k : ℕ
  sm : List α → List α
  scale : α

/-- Modelled from the spec (§4.1): the sequence-shaped transform each
variant applies — identity for `none`, an additive table for
`learn`/`sinusoidal`, the pairwise rotation of the query/key sequence
for `rope`, and for `relative` the attention output computed with the
relative logit bias. -/
def variantApply {α : Type} [CommRing α] (pe : PosEmbedKind)
    (D : VariantData α) (d : ℕ) (seq : List (List α)) : List (List α) :=
  match pe with
  | .pnone => seq
  | .learn => addTable seq D.learnTable
  | .sinusoidal => addTable seq (sinTable D.sin D.cos D.invFreq seq.length d)
  | .relative =>
      attentionWithBias D.sm D.scale d seq seq seq (relBias D.relTable D.k seq)
  | .rope => ropeSeq D.ropeAngles seq

/-! ### Construction-time configuration checks -/

/-- The construction-time error taxonomy of spec §7. -/
inductive ConfigurationError where
  | indivisible
  | oddEmbedDim
  | headDimTooSmall
deriving DecidableEq, Repr

/-- `true` exactly on `Except.error`. -/
def isErr {ε α : Type} : Except ε α → Bool
  | .error _ => true
  | .ok _ => false

/-- The architectural part of the model configuration. -/
structure VitConfig where
  pos_embed : PosEmbedKind
  max_relative_distance : ℕ
  embed_dim : ℕ
  n_layers : ℕ
  n_attention_heads : ℕ
  forward_mul : ℕ
  image_size : ℕ
  patch_size : ℕ
  n_classes : ℕ
deriving DecidableEq, Repr

/-- Modelled from the spec (§7, `vit_model.py` missing): construction
fails fast with a `ConfigurationError` when `embed_dim` is not divisible
by `n_attention_heads`, when `embed_dim` is odd under the sinusoidal or
rope variant, or when the head dimension is below 2 under rope;
otherwise construction succeeds and returns the validated config. -/
def constructVit (c : VitConfig) : Except ConfigurationError VitConfig :=
  if c.embed_dim % c.n_attention_heads ≠ 0 then .error .indivisible
  else if (c.pos_embed = .sinusoidal ∨ c.pos_embed = .rope) ∧
      c.embed_dim % 2 = 1 then .error .oddEmbedDim
  else if c.pos_embed = .rope ∧
      c.embed_dim / c.n_attention_heads < 2 then .error .headDimTooSmall
  else .ok c

/-! ### Evaluation-mode forward pass -/

/-- Modelled from the spec (§4.3, `vit_model.py` missing): dropout
scales activations by a random mask during training and is the identity
in evaluation mode. -/
def dropoutApply {α : Type} [CommRing α] (training : Bool)
    (mask v : List α) : List α :=
  if training then List.zipWith (· * ·) mask v else v

/-- The deterministic sublayers of one encoder layer (attention,
feed-forward, the two pre-norms), abstracted as functions of the
flattened activation vector. -/
structure LayerOps (α : Type) where
  attn : List α → List α
  ff : List α → List α
  norm1 : List α → List α
  norm2 : List α → List α

/-- Modelled from the spec (§4.3): pre-normalization residual encoder
layer `x = x + Attn(Norm x); x = x + Dropout(FF(Norm x))`, with dropout
active only in training mode. -/
def encoderLayer {α : Type} [CommRing α] (L : LayerOps α)
    (training : Bool) (mask : List α) (x : List α) : List α :=
  let x1 := addVec x (L.attn (L.norm1 x))
  addVec x1 (dropoutApply training mask (L.ff (L.norm2 x1)))

/-- Run the encoder stack, consuming one dropout mask per layer (an
exhausted mask list falls back to the empty mask). -/
def runLayers {α : Type} [CommRing α] (training : Bool) :
    List (LayerOps α) → List (List α) → List α → List α
  | [], _, s => s
  | L :: ls, [], s => runLayers training ls [] (encoderLayer L training [] s)
  | L :: ls, m :: ms, s => runLayers training ls ms (encoderLayer L training m s)

/-- Modelled from the spec (§4.3, `vit_model.py` missing): the forward
pass — patch embedding, embedding dropout, the encoder stack, and the
classification head; `embedMask`/`masks` are the dropout randomness,
consulted only in training mode. -/
def vitForward {α : Type} [CommRing α] (embed head : List α → List α)
    (layers : List (LayerOps α)) (training : Bool) (embedMask : List α)
    (masks : List (List α)) (x : List α) : List α :=
  head (runLayers training layers masks
    (dropoutApply training embedMask (embed x)))

/-- The logits collected by `Solver.test_dataset` (`solver.py`
lines 44-67): the model, in evaluation mode, mapped over the loader's
batches. -/
def testDatasetLogits {I O : Type} (forward : I → O) (loader : List I) :
    List O :=
  loader.map forward

/-- A small concrete instance of the per-variant data, used to
instantiate the shape-invariance statement on explicit inputs. -/
def sampleVariantData : VariantData ℚ :=
  { learnTable := [[2]]
    sin := fun x => x
    cos := fun x => x
    invFreq := fun _ => 1
    ropeAngles := fun _ => []
    relTable := [[1]]
    k := 1
    sm := fun l => l
    scale := 1 }

/-! ### Best-accuracy fold lemmas -/

lemma bestAcc_le_foldl (b : ℚ) (l : List ℚ) :
    b ≤ l.foldl (fun x a => max a x) b := by
  induction l generalizing b with
  | nil => simp
  | cons a t ih =>
      calc b ≤ max a b := le_max_right a b
        _ ≤ t.foldl (fun x a => max a x) (max a b) := ih (max a b)
        _ = (a :: t).foldl (fun x a => max a x) b := rfl

lemma mem_le_foldl (l : List ℚ) :
    ∀ (b a : ℚ), a ∈ l → a ≤ l.foldl (fun x a => max a x) b := by
  induction l with
  | nil => intro b a ha; cases ha
  | cons c t ih =>
      intro b a ha
      rcases List.mem_cons.mp ha with h | h
      · subst h
        exact le_trans (le_max_left a b) (bestAcc_le_foldl _ _)
      · exact ih (max c b) a h

lemma foldl_mem_or_init (l : List ℚ) :
    ∀ (b : ℚ), l.foldl (fun x a => max a x) b = b ∨
      l.foldl (fun x a => max a x) b ∈ l := by
  induction l with
  | nil => intro b; left; rfl
  | cons c t ih =>
      intro b
      rcases ih (max c b) with h | h
      · have hfold : (c :: t).foldl (fun x a => max a x) b = max c b := h
        rcases max_choice c b with hb | hb
        · right; rw [hfold, hb]; exact List.mem_cons_self c t
        · left; rw [hfold, hb]
      · right
        exact List.mem_cons_of_mem _ h

lemma foldl_append_singleton (x : ℚ) (l : List ℚ) :
    ∀ b : ℚ, (l ++ [x]).foldl (fun y a => max a y) b =
      max x (l.foldl (fun y a => max a y) b) := by
  induction l with
  | nil => intro b; rfl
  | cons c t ih => intro b; exact ih (max c b)

lemma bestAccAfter_take_mono (accs : List ℚ) (n : ℕ) :
    bestAccAfter (accs.take n) ≤ bestAccAfter (accs.take (n + 1)) := by
  rcases Nat.lt_or_ge n accs.length with h | h
  · have hsucc : accs.take (n + 1) = accs.take n ++ [accs.get ⟨n, h⟩] := by
      rw [List.take_succ]
      simp [List.getElem?_eq_getElem h]
    rw [bestAccAfter, bestAccAfter, hsucc, foldl_append_singleton]
    exact le_max_right _ _
  · rw [List.take_of_length_le h, List.take_of_length_le (by omega)]

/-! ### Shape lemmas -/

lemma mem_zipWith {α β γ : Type} (f : α → β → γ) :
    ∀ (l₁ : List α) (l₂ : List β) (c : γ), c ∈ List.zipWith f l₁ l₂ →
      ∃ a b, a ∈ l₁ ∧ b ∈ l₂ ∧ c = f a b := by
  intro l₁
  induction l₁ with
  | nil => intro l₂ c h; simp at h
  | cons a t ih =>
      intro l₂ c h
      cases l₂ with
      | nil => simp at h
      | cons b t₂ =>
          rcases List.mem_cons.mp h with h | h
          · exact ⟨a, b, List.mem_cons_self _ _, List.mem_cons_self _ _, h⟩
          · rcases ih t₂ c h with ⟨a', b', ha, hb, hc⟩
            exact ⟨a', b', List.mem_cons_of_mem _ ha,
              List.mem_cons_of_mem _ hb, hc⟩

lemma length_addVec {α : Type} [CommRing α] (u v : List α) :
    (addVec u v).length = min u.length v.length := by
  simp [addVec]

lemma addTable_shape {α : Type} [CommRing α] (d : ℕ) (S P : List (List α))
    (hlen : P.length = S.length)
    (hS : ∀ r ∈ S, r.length = d) (hP : ∀ r ∈ P, r.length = d) :
    (addTable S P).length = S.length ∧
      ∀ r ∈ addTable S P, r.length = d := by
  constructor
  · simp [addTable, hlen]
  · intro r hr
    rcases mem_zipWith addVec S P r hr with ⟨u, v, hu, hv, rfl⟩
    rw [length_addVec, hS u hu, hP v hv, min_self]

lemma sinTable_shape {α : Type} [CommRing α] (sin cos : α → α)
    (invFreq : ℕ → α) (L d : ℕ) :
    (sinTable sin cos invFreq L d).length = L ∧
      ∀ r ∈ sinTable sin cos invFreq L d, r.length = d := by
  constructor
  · rw [sinTable, List.length_map, List.length_range]
  · intro r hr
    rcases List.mem_map.mp hr with ⟨pos, _, rfl⟩
    rw [List.length_map, List.length_range]

lemma length_rotateVec {α : Type} [CommRing α] :
    ∀ (cs : List (α × α)) (v : List α), (rotateVec cs v).length = v.length := by
  intro cs v
  induction cs, v using rotateVec.induct with
  | case1 cs => simp [rotateVec]
  | case2 cs x => simp [rotateVec]
  | case3 x y r => simp [rotateVec]
  | case4 c cs x y r ih => simp [rotateVec, ih]

lemma ropeSeq_shape {α : Type} [CommRing α] (angles : ℕ → List (α × α))
    (d : ℕ) (seq : List (List α)) (hseq : ∀ r ∈ seq, r.length = d) :
    (ropeSeq angles seq).length = seq.length ∧
      ∀ r ∈ ropeSeq angles seq, r.length = d := by
  constructor
  · simp [ropeSeq]
  · intro r hr
    rcases mem_zipWith _ _ _ r hr with ⟨pos, v, _, hv, rfl⟩
    rw [length_rotateVec, hseq v hv]

lemma length_scaleVec {α : Type} [CommRing α] (c : α) (v : List α) :
    (scaleVec c v).length = v.length := by
  simp [scaleVec]

lemma length_foldr_addVec {α : Type} [CommRing α] (d : ℕ) :
    ∀ (rows : List (List α)), (∀ r ∈ rows, r.length = d) →
      (rows.foldr addVec (List.replicate d 0)).length = d := by
  intro rows
  induction rows with
  | nil => intro _; simp
  | cons r t ih =>
      intro h
      have ht := ih (fun s hs => h s (List.mem_cons_of_mem _ hs))
      have hr := h r (List.mem_cons_self _ _)
      simp [List.foldr_cons, length_addVec, ht, hr]

lemma length_weightedSum {α : Type} [CommRing α] (d : ℕ) (w : List α)
    (V : List (List α)) (hV : ∀ r ∈ V, r.length = d) :
    (weightedSum d w V).length = d := by
  apply length_foldr_addVec
  intro r hr
  rcases mem_zipWith scaleVec w V r hr with ⟨c, v, _, hv, rfl⟩
  rw [length_scaleVec, hV v hv]

lemma attentionWithBias_shape {α : Type} [CommRing α]
    (sm : List α → List α) (scale : α) (d : ℕ)
    (Q K V bias : List (List α)) (hb : bias.length = Q.length)
    (hV : ∀ r ∈ V, r.length = d) :
    (attentionWithBias sm scale d Q K V bias).length = Q.length ∧
      ∀ r ∈ attentionWithBias sm scale d Q K V bias, r.length = d := by
  constructor
  · simp [attentionWithBias, hb]
  · intro r hr
    simp only [attentionWithBias, List.map_map, List.mem_map] at hr
    rcases hr with ⟨p, _, rfl⟩
    exact length_weightedSum d _ V hV

lemma relBias_length {α : Type} [CommRing α] (R : List (List α)) (k : ℕ)
    (Q : List (List α)) : (relBias R k Q).length = Q.length := by
  simp [relBias]

/-! ### Rope norm preservation -/

lemma sumSq_rotateVec {α : Type} [CommRing α] :
    ∀ (cs : List (α × α)) (v : List α),
      (∀ c ∈ cs, c.1 * c.1 + c.2 * c.2 = 1) →
      sumSq (rotateVec cs v) = sumSq v := by
  intro cs v
  induction cs, v using rotateVec.induct with
  | case1 cs => intro _; simp [rotateVec]
  | case2 cs x => intro _; simp [rotateVec]
  | case3 x y r => intro _; simp [rotateVec]
  | case4 c cs x y r ih =>
      intro h
      have hc := h c (List.mem_cons_self _ _)
      have ih' := ih (fun c' hc' => h c' (List.mem_cons_of_mem _ hc'))
      simp only [rotateVec, sumSq, List.map_cons, List.sum_cons] at ih' ⊢
      rw [ih']
      linear_combination (x * x + y * y) * hc

/-! ### Evaluation-mode determinism -/

lemma dropoutApply_eval {α : Type} [CommRing α] (mask v : List α) :
    dropoutApply false mask v = v := rfl

lemma encoderLayer_eval_mask_free {α : Type} [CommRing α] (L : LayerOps α)
    (m₁ m₂ x : List α) :
    encoderLayer L false m₁ x = encoderLayer L false m₂ x := rfl

lemma runLayers_eval_mask_free {α : Type} [CommRing α] :
    ∀ (ls : List (LayerOps α)) (ms₁ ms₂ : List (List α)) (s : List α),
      runLayers false ls ms₁ s = runLayers false ls ms₂ s := by
  intro ls
  induction ls with
  | nil => intro ms₁ ms₂ s; cases ms₁ <;> cases ms₂ <;> rfl
  | cons L t ih =>
      intro ms₁ ms₂ s
      cases ms₁ with
      | nil =>
          cases ms₂ with
          | nil => rfl
          | cons m₂ t₂ =>
              show runLayers false t [] _ = runLayers false t t₂ _
              rw [encoderLayer_eval_mask_free L [] m₂]
              exact ih [] t₂ _
      | cons m₁ t₁ =>
          cases ms₂ with
          | nil =>
              show runLayers false t t₁ _ = runLayers false t [] _
              rw [encoderLayer_eval_mask_free L m₁ []]
              exact ih t₁ [] _
          | cons m₂ t₂ =>
              show runLayers false t t₁ _ = runLayers false t t₂ _
              rw [encoderLayer_eval_mask_free L m₁ m₂]
              exact ih t₁ t₂ _

/-! ### Claim theorems -/

/-- Claim C1: the claim says saving and loading a checkpoint use the same
variant-keyed file path.  The code does not: `Solver.train` writes
`ViT_model_{pos_embed}.pt` while `Solver.__init__` reads the fixed name
`ViT_model.pt`, so for every model path and every variant tag the two
paths differ — loading back what training saved is impossible under
these paths.  The concrete conjuncts evaluate both paths at the failing
input (`model_path = "model/cifar10"`, `pos_embed = "learn"`). -/
theorem checkpoint_save_load_path_mismatch :
    savePathOf "model/cifar10" "learn" = "model/cifar10/ViT_model_learn.pt"
    ∧ loadPathOf "model/cifar10" = "model/cifar10/ViT_model.pt"
    ∧ ∀ (modelPath variant : String),
        savePathOf modelPath variant ≠ loadPathOf modelPath := by
  refine ⟨rfl, rfl, ?_⟩
  intro mp v h
  have hlen := congrArg String.length h
  simp only [savePathOf, loadPathOf, pathJoin, String.length_append] at hlen
  have h1 : ("ViT_model_" : String).length = 10 := rfl
  have h2 : (".pt" : String).length = 3 := rfl
  have h3 : ("ViT_model.pt" : String).length = 12 := rfl
  have h4 : ("/" : String).length = 1 := rfl
  omega

/-- Claim C2, counterexample: two configuration records that differ in
`embed_dim`, `n_layers`, `n_attention_heads`, `forward_mul`,
`image_size`, `patch_size` and `dropout` produce the identical
`VisionTransformer(...)` constructor call, refuting that changing these
fields changes the corresponding constructor argument. -/
theorem solverViTCall_ignores_config_fields :
    (Args.mk .learn 2 128 6 4 2 32 4 (1 / 10) 10).embed_dim ≠
      (Args.mk .learn 2 256 12 8 4 64 8 (1 / 5) 10).embed_dim
    ∧ solverViTCall (Args.mk .learn 2 128 6 4 2 32 4 (1 / 10) 10) =
      solverViTCall (Args.mk .learn 2 256 12 8 4 64 8 (1 / 5) 10) :=
  ⟨by decide, rfl⟩

/-- Claim C2, amended: `Solver.__init__` constructs the
`VisionTransformer` with the fixed built-in values `n_channels=3,
embed_dim=128, n_layers=6, n_attention_heads=4, forward_mul=2,
image_size=32, patch_size=4, dropout=0.1`; only `n_classes`,
`pos_embed` and `max_relative_distance` are taken from the
configuration record. -/
theorem solverViTCall_fixed_architecture (a : Args) :
    solverViTCall a =
      ViTCall.mk 3 128 6 4 2 32 4 (1 / 10) a.n_classes a.pos_embed
        a.max_relative_distance := rfl

/-- Claim C3: for positive `image_size` and `patch_size`, `update_args`
sets `n_patches = (image_size / patch_size)^2` (integer division, as in
the Python `//`); in particular `image_size=32, patch_size=4` gives
`n_patches = 64` and sequence length `65`. -/
theorem update_args_n_patches (image_size patch_size : ℕ)
    (h₁ : 0 < image_size) (h₂ : 0 < patch_size) :
    nPatchesOf image_size patch_size = (image_size / patch_size) ^ 2
    ∧ nPatchesOf 32 4 = 64 ∧ seqLenOf 32 4 = 65 :=
  ⟨rfl, by decide, by decide⟩

/-- Witness for C3 at `image_size=32, patch_size=4`. -/
theorem update_args_n_patches_witness :
    nPatchesOf 32 4 = (32 / 4) ^ 2 ∧ nPatchesOf 32 4 = 64
    ∧ seqLenOf 32 4 = 65 :=
  update_args_n_patches 32 4 (by decide) (by decide)

/-- Claim C4: in evaluation mode (as entered by `Solver.test_dataset`)
the forward pass is deterministic given parameters and input — the
dropout randomness is never consulted, so two passes with arbitrary,
possibly different, dropout masks produce identical logits, and the
logits collected over a whole loader coincide batchwise. -/
theorem eval_forward_deterministic {α : Type} [CommRing α]
    (embed head : List α → List α) (layers : List (LayerOps α))
    (em₁ em₂ : List α) (ms₁ ms₂ : List (List α)) (x : List α)
    (loader : List (List α)) :
    vitForward embed head layers false em₁ ms₁ x =
      vitForward embed head layers false em₂ ms₂ x
    ∧ testDatasetLogits (vitForward embed head layers false em₁ ms₁) loader =
      testDatasetLogits (vitForward embed head layers false em₂ ms₂) loader := by
  have hx : ∀ (y : List α),
      vitForward embed head layers false em₁ ms₁ y =
        vitForward embed head layers false em₂ ms₂ y := by
    intro y
    unfold vitForward
    rw [dropoutApply_eval, dropoutApply_eval]
    exact congrArg head (runLayers_eval_mask_free layers ms₁ ms₂ _)
  refine ⟨hx x, ?_⟩
  unfold testDatasetLogits
  exact List.map_congr_left (fun y _ => hx y)

/-- Claim C5: construction fails with a `ConfigurationError` when
`embed_dim` is odd under the sinusoidal or rope variant, or when
`embed_dim` is not divisible by `n_attention_heads` (and when the head
dimension is below 2 under rope); in particular `embed_dim = 127` with
the sinusoidal variant always fails at construction.  The modelled
forward pass (`vitForward`) is a total function, so no error of this
taxonomy can arise at forward-pass time. -/
theorem constructVit_configuration_errors (c : VitConfig) :
    ((c.pos_embed = .sinusoidal ∨ c.pos_embed = .rope) →
        c.embed_dim % 2 = 1 → isErr (constructVit c) = true)
    ∧ (c.embed_dim % c.n_attention_heads ≠ 0 → isErr (constructVit c) = true)
    ∧ (c.pos_embed = .rope → c.embed_dim / c.n_attention_heads < 2 →
        isErr (constructVit c) = true)
    ∧ isErr (constructVit
        { c with embed_dim := 127, pos_embed := .sinusoidal }) = true := by
  have hodd : ∀ c' : VitConfig,
      (c'.pos_embed = .sinusoidal ∨ c'.pos_embed = .rope) →
      c'.embed_dim % 2 = 1 → isErr (constructVit c') = true := by
    intro c' hv ho
    rw [constructVit]
    split_ifs with h₁ h₂ h₃
    · rfl
    · rfl
    · rfl
    · exact absurd ⟨hv, ho⟩ h₂
  refine ⟨hodd c, ?_, ?_, hodd _ (Or.inl rfl) (by simp)⟩
  · intro hne
    rw [constructVit]
    split_ifs <;> rfl
  · intro hr hd
    rw [constructVit]
    split_ifs with h₁ h₂ h₃
    · rfl
    · rfl
    · rfl
    · exact absurd ⟨hr, hd⟩ h₃

/-- Witness for C5: the spec's own failing configuration,
`embed_dim = 127` under the sinusoidal variant. -/
theorem constructVit_configuration_errors_witness :
    isErr (constructVit (VitConfig.mk .sinusoidal 2 127 6 4 2 32 4 10)) =
      true :=
  (constructVit_configuration_errors
    (VitConfig.mk .sinusoidal 2 127 6 4 2 32 4 10)).1 (Or.inl rfl) (by decide)

/-- Claim C6: every one of the five positional-embedding variants is
shape-preserving — the transformed sequence (identity for `none`, the
additive table sum for `learn`/`sinusoidal`, the rotated query/key
sequence for `rope`, the biased-attention output for `relative`) has
the same length and the same embedding dimension as the input
sequence. -/
theorem variantApply_shape_invariant {α : Type} [CommRing α]
    (pe : PosEmbedKind) (D : VariantData α) (d : ℕ) (seq : List (List α))
    (hseq : ∀ r ∈ seq, r.length = d)
    (hP : D.learnTable.length = seq.length)
    (hPr : ∀ r ∈ D.learnTable, r.length = d) :
    (variantApply pe D d seq).length = seq.length
    ∧ ∀ r ∈ variantApply pe D d seq, r.length = d := by
  cases pe with
  | pnone => exact ⟨rfl, hseq⟩
  | learn => exact addTable_shape d seq D.learnTable hP hseq hPr
  | sinusoidal =>
      have h := sinTable_shape D.sin D.cos D.invFreq seq.length d
      exact addTable_shape d seq _ h.1 hseq h.2
  | relative =>
      exact attentionWithBias_shape D.sm D.scale d seq seq seq _
        (relBias_length D.relTable D.k seq) hseq
  | rope => exact ropeSeq_shape D.ropeAngles d seq hseq

/-- Witness for C6 at the relative variant on a concrete one-vector
sequence of dimension 1. -/
theorem variantApply_shape_invariant_witness :
    (variantApply .relative sampleVariantData 1 [[(1 : ℚ)]]).length = 1
    ∧ ∀ r ∈ variantApply .relative sampleVariantData 1 [[(1 : ℚ)]],
        r.length = 1 :=
  variantApply_shape_invariant .relative sampleVariantData 1 [[(1 : ℚ)]]
    (by decide) (by decide) (by decide)

/-- Claim C7: the rope rotation — each adjacent coordinate pair of a
query/key vector rotated by the angle
`pos / 10000^(2i/dim)` of its sequence position — preserves the sum of
squared coordinates and hence the Euclidean norm of the vector, for
every position, every dimension parameter and every vector. -/
theorem rope_rotation_norm_preserving (pos dim : ℕ) (v : List ℝ) :
    sumSq (rotateVec ((List.range (v.length / 2)).map (fun (i : ℕ) =>
        (Real.cos ((pos : ℝ) / (10000 : ℝ) ^ (2 * (i : ℝ) / (dim : ℝ))),
         Real.sin ((pos : ℝ) / (10000 : ℝ) ^ (2 * (i : ℝ) / (dim : ℝ)))))) v)
      = sumSq v
    ∧ Real.sqrt (sumSq (rotateVec ((List.range (v.length / 2)).map
        (fun (i : ℕ) =>
        (Real.cos ((pos : ℝ) / (10000 : ℝ) ^ (2 * (i : ℝ) / (dim : ℝ))),
         Real.sin ((pos : ℝ) / (10000 : ℝ) ^ (2 * (i : ℝ) / (dim : ℝ)))))) v))
      = Real.sqrt (sumSq v) := by
  have h : sumSq (rotateVec ((List.range (v.length / 2)).map (fun (i : ℕ) =>
      (Real.cos ((pos : ℝ) / (10000 : ℝ) ^ (2 * (i : ℝ) / (dim : ℝ))),
       Real.sin ((pos : ℝ) / (10000 : ℝ) ^ (2 * (i : ℝ) / (dim : ℝ)))))) v)
      = sumSq v := by
    apply sumSq_rotateVec
    intro c hc
    rcases List.mem_map.mp hc with ⟨i, _, rfl⟩
    have ht := Real.cos_sq_add_sin_sq
      ((pos : ℝ) / (10000 : ℝ) ^ (2 * (i : ℝ) / (dim : ℝ)))
    rw [sq, sq] at ht
    exact ht
  exact ⟨h, congrArg Real.sqrt h⟩

/-- Claim C8: the relative index equals `clip(j - i, -k, k) + k`; all
raw distances at or beyond the clip radius saturate to the boundary
index (`2k` on the right, `0` on the left), the index never exceeds
`2k` (no wrap, no error), and for `k = 2` the raw distances `2` and `5`
map to the identical index. -/
theorem relIndex_clip_saturation (k i j : ℕ) :
    relIndex k i j =
      (max (-(k : ℤ)) (min ((j : ℤ) - (i : ℤ)) (k : ℤ)) + (k : ℤ)).toNat
    ∧ ((k : ℤ) ≤ (j : ℤ) - (i : ℤ) → relIndex k i j = 2 * k)
    ∧ ((j : ℤ) - (i : ℤ) ≤ -(k : ℤ) → relIndex k i j = 0)
    ∧ relIndex k i j ≤ 2 * k
    ∧ relIndex 2 0 2 = relIndex 2 0 5 := by
  refine ⟨rfl, ?_, ?_, ?_, by decide⟩
  · intro h
    rw [relIndex]
    omega
  · intro h
    rw [relIndex]
    omega
  · rw [relIndex]
    omega

/-- Witness for C8: saturation on both sides at `k = 2`. -/
theorem relIndex_clip_saturation_witness :
    relIndex 2 0 5 = 2 * 2 ∧ relIndex 2 3 0 = 0 :=
  ⟨(relIndex_clip_saturation 2 0 5).2.1 (by decide),
   (relIndex_clip_saturation 2 3 0).2.2.1 (by decide)⟩

/-- Claim C9: `Solver.test` always returns the accuracy/loss pair
computed on the test loader; the `train` flag only controls whether the
train-loader metrics are additionally evaluated and printed. -/
theorem solverTest_returns_test_metrics {L : Type}
    (testDataset : L → ℚ × ℚ) (trainLoader testLoader : L) (train : Bool) :
    (solverTest testDataset trainLoader testLoader train).2 =
      testDataset testLoader
    ∧ (solverTest testDataset trainLoader testLoader train).2 =
      (solverTest testDataset trainLoader testLoader false).2
    ∧ (solverTest testDataset trainLoader testLoader true).1 =
      [testDataset trainLoader]
    ∧ (solverTest testDataset trainLoader testLoader false).1 = [] :=
  ⟨rfl, rfl, rfl, rfl⟩

/-- Claim C10: with nonnegative per-epoch test accuracies, the
`best_acc` value printed after each epoch is non-decreasing across
epochs, and after each epoch it is the maximum test accuracy observed
so far (a member of the observed prefix that bounds every member). -/
theorem bestAcc_monotone_max (accs : List ℚ) (h0 : ∀ a ∈ accs, 0 ≤ a) :
    (∀ n, bestAccAfter (accs.take n) ≤ bestAccAfter (accs.take (n + 1)))
    ∧ ∀ n, n < accs.length →
        bestAccAfter (accs.take (n + 1)) ∈ accs.take (n + 1)
        ∧ ∀ a ∈ accs.take (n + 1), a ≤ bestAccAfter (accs.take (n + 1)) := by
  refine ⟨fun n => bestAccAfter_take_mono accs n, ?_⟩
  intro n hn
  have hne : accs.take (n + 1) ≠ [] := by
    apply List.ne_nil_of_length_pos
    rw [List.length_take]
    omega
  constructor
  · rcases foldl_mem_or_init (accs.take (n + 1)) 0 with h | h
    · rcases List.exists_mem_of_ne_nil _ hne with ⟨a, ha⟩
      have h1 : a ≤ 0 := by
        have := mem_le_foldl (accs.take (n + 1)) 0 a ha
        rwa [h] at this
      have h2 : 0 ≤ a := h0 a (List.take_subset _ _ ha)
      have ha0 : a = 0 := le_antisymm h1 h2
      show bestAccAfter (accs.take (n + 1)) ∈ accs.take (n + 1)
      rw [bestAccAfter, h, ← ha0]
      exact ha
    · exact h
  · intro a ha
    exact mem_le_foldl (accs.take (n + 1)) 0 a ha

/-- Witness for C10 on the accuracy trace `[1, 0]`. -/
theorem bestAcc_monotone_max_witness :
    bestAccAfter (([1, 0] : List ℚ).take 1) ≤
      bestAccAfter (([1, 0] : List ℚ).take (1 + 1))
    ∧ bestAccAfter (([1, 0] : List ℚ).take (1 + 1)) ∈
      ([1, 0] : List ℚ).take (1 + 1) :=
  ⟨(bestAcc_monotone_max [1, 0] (by decide)).1 1,
   ((bestAcc_monotone_max [1, 0] (by decide)).2 1 (by decide)).1⟩

end ViTRepo
